import Mathlib

/-!
Shallow embedding of the AMD LED-control backend of ledmon
(`src/amd_sm_ipmi.c` and `src/lib/amd.c`): platform detection,
hardware-path resolution, and the IPMI register read-modify-write
protocol, together with theorems checking the specification.
-/

namespace AmdLed

/-- IBPI LED patterns: the closed enumeration used by this backend. -/
inductive IbpiPattern where
  | normal
  | oneshotNormal
  | pfa
  | locate
  | locateOff
  | failedDrive
  | failedArray
  | rebuild
  | hotspare
  deriving DecidableEq, Repr

/-- Embedding of the static table `amd_ibpi_ipmi_register` mapping each
pattern to its register offset.  Entries absent from the C designated
initializer (the two "normal" states) are zero-filled, as in C. -/
def amd_ibpi_ipmi_register : IbpiPattern → Nat
  | .pfa => 0x41
  | .locate => 0x00
  | .locateOff => 0x01
  | .failedDrive => 0x44
  | .failedArray => 0x45
  | .rebuild => 0x46
  | .hotspare => 0x47
  | _ => 0

/-- Device kind stored in `struct amd_drive` (`AMD_NVME_DEVICE` / `AMD_SATA_DEVICE`). -/
inductive AmdDevKind where
  | nvme
  | sata
  deriving DecidableEq, Repr

/-- Embedding of `struct amd_drive`: resolved port, derived bay bitmask
(a C `int`), and device kind.  A value of this type may also stand for
the indeterminate contents of an uninitialized stack variable. -/
structure AmdDrive where
  port : Int
  drive_bay : Int
  dev : AmdDevKind
  deriving DecidableEq, Repr

/-- One IPMI transaction as issued by the register protocol: the literal
5-byte request frame built in `cmd_data`, together with the register it
addresses and, for the write phase, the status value written. -/
inductive IpmiOp where
  | regRead (frame : List Nat) (reg : Nat)
  | regWrite (frame : List Nat) (reg : Nat) (val : Nat)
  deriving DecidableEq, Repr

/-- The external world of one LED-control session: the BMC register
bytes, the transport return code handed back by each successive
`ipmicmd` call (`0` = success, anything else is the failure code the C
code sees in `rc`), a call counter, and a log of issued transactions. -/
structure World where
  regs : Nat → Nat
  sched : Nat → Int
  calls : Nat
  log : List IpmiOp

/-- Truncation of a C `int` value to `uint8_t` (two's complement low byte). -/
def c_uint8ofInt (x : Int) : Nat := (x % 256).toNat

/-- Embedding of `_set_ipmi_register`: read the current status byte of
`reg` over IPMI, OR in (enable) or mask out (disable) the drive's bay
bitmask, and write the result back, aborting with the transport's
return code if either call fails.  A failed write is modelled as
leaving the BMC register unchanged (the C code cannot observe whether
it partially applied). -/
def _set_ipmi_register (enable : Bool) (reg : Nat) (drive_bay : Int) (w : World) : Int × World :=
  let rcR := w.sched w.calls
  let wR : World :=
    { w with calls := w.calls + 1,
             log := w.log ++ [IpmiOp.regRead [0x6c, 0x1, 0x0, 0x0, reg] reg] }
  if rcR ≠ 0 then (rcR, wR)
  else
    let drives_status := wR.regs reg % 256
    let new_drives_status :=
      if enable then c_uint8ofInt (Int.lor (Int.ofNat drives_status) drive_bay)
      else c_uint8ofInt (Int.land (Int.ofNat drives_status) (Int.not drive_bay))
    let rcW := wR.sched wR.calls
    let wW : World :=
      { wR with calls := wR.calls + 1,
                log := wR.log ++
                  [IpmiOp.regWrite [0x6c, 0x1, 0x0, 0x0, new_drives_status] reg new_drives_status] }
    if rcW ≠ 0 then (rcW, wW)
    else (0, { wW with regs := fun r => if r = reg then new_drives_status else wW.regs r })

/-- Embedding of `_enable_ibpi_state`. -/
def _enable_ibpi_state (drive : AmdDrive) (ibpi : IbpiPattern) (w : World) : Int × World :=
  _set_ipmi_register true (amd_ibpi_ipmi_register ibpi) drive.drive_bay w

/-- Embedding of `_disable_ibpi_state`. -/
def _disable_ibpi_state (drive : AmdDrive) (ibpi : IbpiPattern) (w : World) : Int × World :=
  _set_ipmi_register false (amd_ibpi_ipmi_register ibpi) drive.drive_bay w

/-- Embedding of `_disable_all_ibpi_states`: disable the six patterns in
source order, OR-accumulating the return codes (`rc |= ...`). -/
def _disable_all_ibpi_states (drive : AmdDrive) (w : World) : Int × World :=
  let r1 := _disable_ibpi_state drive .pfa w
  let r2 := _disable_ibpi_state drive .locate r1.2
  let r3 := _disable_ibpi_state drive .locateOff r2.2
  let r4 := _disable_ibpi_state drive .failedDrive r3.2
  let r5 := _disable_ibpi_state drive .failedArray r4.2
  let r6 := _disable_ibpi_state drive .rebuild r5.2
  (Int.lor (Int.lor (Int.lor (Int.lor (Int.lor r1.1 r2.1) r3.1) r4.1) r5.1) r6.1, r6.2)

/-- Registers read from the transaction log, in issue order. -/
def readRegs (log : List IpmiOp) : List Nat :=
  log.filterMap fun op =>
    match op with
    | .regRead _ r => some r
    | .regWrite _ _ _ => none

/-- Write transactions (register, value written) from the log, in issue order. -/
def writeOps (log : List IpmiOp) : List (Nat × Nat) :=
  log.filterMap fun op =>
    match op with
    | .regRead _ _ => none
    | .regWrite _ r v => some (r, v)

/-- Embedding of C `strrchr(path, '/')` followed by `p++`: the suffix of
the list after the last occurrence of a slash, or `none` when the list
holds no slash. -/
def afterLastSlash : List Char → Option (List Char)
  | [] => none
  | c :: rest =>
    match afterLastSlash rest with
    | some t => some t
    | none => if c = '/' then some rest else none

/-- Embedding of C `strchr(s, c)` as an index: position of the first
occurrence of `c`, or `none`. -/
def strchr0 (c : Char) : List Char → Option Nat
  | [] => none
  | d :: rest => if d = c then some 0 else (strchr0 c rest).map (· + 1)

/-- Embedding of C `strstr(hay, needle)` as an index: first position at
which `needle` occurs as a contiguous substring of `hay`, or `none`. -/
def strstr0 (needle : List Char) : List Char → Option Nat
  | [] => if needle.isPrefixOf ([] : List Char) then some 0 else none
  | c :: rest =>
    if needle.isPrefixOf (c :: rest) then some 0 else (strstr0 needle rest).map (· + 1)

/-- Modelled from the spec: `str_toi` (utils.c, not under src/) parsing a
slot-registry entry name; per the spec, entry names are decimal bay
indices, so the parse accepts exactly nonempty all-digit strings. -/
def parseDec (s : List Char) : Option Nat :=
  if s = [] then none
  else if s.all (fun c => c.isDigit) then
    some (s.foldl (fun acc c => acc * 10 + (c.toNat - 48)) 0)
  else none

/-- One entry of the platform slot registry (`/sys/bus/pci/slots`):
its own path-segment name and its textual address attribute (`none`
models `get_text` failing for that entry). -/
structure SlotEntry where
  name : List Char
  address : Option (List Char)
  deriving DecidableEq, Repr

/-- The scan loop of `_get_ipmi_nvme_port` over the slot registry: the
first entry with a readable address equal to `p` has its name parsed;
a parse failure is `-1`; exhausting the registry leaves the initial
`port = -1`. -/
def scanSlots (p : List Char) : List SlotEntry → Int
  | [] => -1
  | e :: rest =>
    match e.address with
    | some a =>
      if a = p then
        match parseDec e.name with
        | some n => Int.ofNat n
        | none => -1
      else scanSlots p rest
    | none => scanSlots p rest

/-- Embedding of `_get_ipmi_nvme_port`: take the final path segment
(after the last `/`, error if none), cut it at its first `.` (error if
none), and look the resulting slot address up in the registry. -/
def _get_ipmi_nvme_port (path : List Char) (slots : List SlotEntry) : Int :=
  match afterLastSlash path with
  | none => -1
  | some p =>
    match strchr0 '.' p with
    | none => -1
    | some k => scanSlots (p.take k) slots

/-- The literal `nvme` marker searched for in hardware paths. -/
def nvmeMarker : List Char := String.toList "nvme"

/-- The literal `ata` marker searched for in controller paths. -/
def ataMarker : List Char := String.toList "ata"

/-- A node of the model filesystem: entry name, whether `lstat` reports
a directory, and its children. -/
inductive FsNode where
  | mk (name : List Char) (isDir : Bool) (children : List FsNode)
  deriving Repr

/-- Name of a filesystem node. -/
def FsNode.name : FsNode → List Char
  | .mk n _ _ => n

/-- Embedding of `_find_file_path` (src/lib/amd.c) over the model tree:
scan the entries in order; an entry whose name prefix-matches
`filename` stops the scan with success, directories are otherwise
recursed into.  Only the found/not-found result is modelled; the `path`
out-parameter (the matched entry's parent directory) is carried
separately in `ResolveEnv`. -/
def _find_file_path (filename : List Char) : List FsNode → Bool
  | [] => false
  | FsNode.mk nm d ch :: rest =>
    if filename.isPrefixOf nm then true
    else if d && _find_file_path filename ch then true
    else _find_file_path filename rest

/-- Whether any entry of the tree, at any depth, satisfies `p`. -/
def anyEntry (p : FsNode → Bool) : List FsNode → Bool
  | [] => false
  | FsNode.mk nm d ch :: rest =>
    p (FsNode.mk nm d ch) || anyEntry p ch || anyEntry p rest

/-- The environment `_get_amd_ipmi_drive` resolves against: the
directory tree under the drive's controller path, the path the
`_find_file_path` out-parameter yields on success, and the slot
registry. -/
structure ResolveEnv where
  tree : List FsNode
  foundPath : List Char
  slots : List SlotEntry

/-- C `1 << n` on `int`: defined only for shift amounts in `[0, 31)`;
negative or overlarge shifts are undefined behavior (C11 6.5.7),
modelled as `none`. -/
def c_shl1 (n : Int) : Option Int :=
  if 0 ≤ n ∧ n < 31 then some ((2 : Int) ^ n.toNat) else none

/-- Embedding of `_get_amd_ipmi_drive`: when an `nvme`-prefixed entry is
found below the start path, resolve the port, fail (`-1`) on a negative
port, otherwise derive `drive_bay = 1 << (port - 1)` and set the device
kind; when nothing is found, return success leaving the caller's
(uninitialized) drive record untouched.  `none` models undefined
behavior of the shift. -/
def _get_amd_ipmi_drive (env : ResolveEnv) (drive : AmdDrive) : Option (Int × AmdDrive) :=
  if _find_file_path (nvmeMarker) env.tree then
    let port := _get_ipmi_nvme_port env.foundPath env.slots
    if port < 0 then some (-1, { drive with port := port })
    else
      match c_shl1 (port - 1) with
      | none => none
      | some bay => some (0, { port := port, drive_bay := bay, dev := AmdDevKind.nvme })
  else some (0, drive)

/-- Embedding of `_amd_ipmi_sm_write`: resolve the drive (from an
uninitialized stack record `drive0`), then either disable everything
(normal states), disable only the locate-off register, or enable the
single register mapped to the pattern. -/
def _amd_ipmi_sm_write (env : ResolveEnv) (drive0 : AmdDrive) (ibpi : IbpiPattern)
    (w : World) : Option (Int × World) :=
  match _get_amd_ipmi_drive env drive0 with
  | none => none
  | some (rc, drive) =>
    if rc ≠ 0 then some (rc, w)
    else if ibpi = IbpiPattern.normal ∨ ibpi = IbpiPattern.oneshotNormal then
      some (_disable_all_ibpi_states drive w)
    else if ibpi = IbpiPattern.locateOff then
      some (_disable_ibpi_state drive IbpiPattern.locateOff w)
    else
      some (_enable_ibpi_state drive ibpi w)

/-- Embedding of `_amd_ipmi_sm_get_path`: duplicate the sysfs path for
paths containing `nvme`; otherwise truncate the controller path just
past the first `/` at or after the first occurrence of `ata`; `none`
when neither applies. -/
def _amd_ipmi_sm_get_path (cntrl_path sysfs_path : List Char) : Option (List Char) :=
  if (strstr0 (nvmeMarker) cntrl_path).isSome then some sysfs_path
  else
    match strstr0 (ataMarker) cntrl_path with
    | none => none
    | some i =>
      match strchr0 '/' (cntrl_path.drop i) with
      | none => none
      | some j => some (cntrl_path.take (i + j + 1))

/-- Spec-side predicate: the path contains a SATA-controller marker of
the form `ataN` (the literal characters `ata` followed by a digit), as
§4.1 of the spec describes the marker. -/
def hasAtaDigit : List Char → Bool
  | [] => false
  | c :: rest =>
    (match c, rest with
     | 'a', 't' :: 'a' :: d :: _ => d.isDigit
     | _, _ => false) || hasAtaDigit rest

/-- The process-wide interface selector `enum amd_led_interfaces`. -/
inductive AmdLedInterface where
  | unset
  | sgpio
  | ipmi
  | newInterface
  deriving DecidableEq, Repr

/-- The process-wide platform selector `enum amd_ipmi_platforms`. -/
inductive AmdIpmiPlatform where
  | unset
  | ethanolX
  | daytonaX
  | lenovoX
  deriving DecidableEq, Repr

/-- The two module-level globals of src/lib/amd.c. -/
structure AmdGlobals where
  amd_interface : AmdLedInterface
  amd_ipmi_platform : AmdIpmiPlatform
  deriving DecidableEq, Repr

/-- Embedding of C `strncmp(a, b, n) == 0`: the first `n` characters
agree (a shorter string mismatches through its terminator). -/
def strncmpEq (a b : List Char) (n : Nat) : Bool :=
  a.take n == b.take n

/-- Embedding of `amd_em_enabled` (src/lib/amd.c): default the interface
to SGPIO; a failed read of the firmware identity (`product_name =
none`) returns 0 right away; otherwise match the identity string by
case-sensitive prefix against the fixed table and dispatch the selected
backend's enablement probe.  The probe results are external
collaborators, passed in as oracles; the default switch branch returns
`-EOPNOTSUPP` (-95). -/
def amd_em_enabled (product_name : Option (List Char)) (g0 : AmdGlobals)
    (sgpioProbe ipmiProbe newIntfProbe : Int) : AmdGlobals × Int :=
  let g1 : AmdGlobals := { g0 with amd_interface := AmdLedInterface.sgpio }
  match product_name with
  | none => (g1, 0)
  | some platform =>
    let g2 : AmdGlobals :=
      if strncmpEq platform (String.toList "ETHANOL_X") 9 then
        { g1 with amd_interface := AmdLedInterface.ipmi,
                  amd_ipmi_platform := AmdIpmiPlatform.ethanolX }
      else if strncmpEq platform (String.toList "DAYTONA_X") 9 then
        { g1 with amd_interface := AmdLedInterface.ipmi,
                  amd_ipmi_platform := AmdIpmiPlatform.daytonaX }
      else if strncmpEq platform (String.toList "ThinkSystem SR655 V3") 20 then
        { g1 with amd_interface := AmdLedInterface.newInterface,
                  amd_ipmi_platform := AmdIpmiPlatform.lenovoX }
      else g1
    let rc : Int :=
      match g2.amd_interface with
      | AmdLedInterface.sgpio => sgpioProbe
      | AmdLedInterface.ipmi => ipmiProbe
      | AmdLedInterface.newInterface => newIntfProbe
      | AmdLedInterface.unset => -95
    (g2, rc)

/-- `STATUS_SUCCESS` of ledmon's status enumeration. -/
def STATUS_SUCCESS : Int := 0

/-- Modelled from the spec: `STATUS_FILE_WRITE_ERROR` from ledmon's
status enumeration (status.h, not under src/); a fixed nonzero code
whose exact value the claims do not depend on. -/
def STATUS_FILE_WRITE_ERROR : Int := 14

/-- The slice of `struct block_device` the dispatcher uses: the
last-applied pattern and the resolution environment reachable from the
device's controller path. -/
structure BlockDevice where
  ibpi_prev : IbpiPattern
  env : ResolveEnv

/-- Embedding of `amd_write` (src/lib/amd.c): success without any work
when the pattern equals the device's previous pattern, otherwise
dispatch on the selected interface.  The IPMI branch is the IPMI
register backend of src/amd_sm_ipmi.c; the SGPIO and attention
backends are external collaborators passed as oracles. -/
def amd_write (g : AmdGlobals) (dev : BlockDevice) (ibpi : IbpiPattern)
    (drive0 : AmdDrive) (sgpioW newW : World → Int × World) (w : World) :
    Option (Int × World) :=
  if ibpi = dev.ibpi_prev then some (STATUS_SUCCESS, w)
  else
    match g.amd_interface with
    | AmdLedInterface.sgpio => some (sgpioW w)
    | AmdLedInterface.ipmi => _amd_ipmi_sm_write dev.env drive0 ibpi w
    | AmdLedInterface.newInterface => some (newW w)
    | AmdLedInterface.unset => some (STATUS_FILE_WRITE_ERROR, w)

/-- Modelled from the spec: the caller-side bookkeeping of
`last_applied_pattern`, which lives outside src/ (the daemon records
the pattern it sent after a successful write).  Per §4.4: on success
the device's last-applied pattern becomes `ibpi`; on failure it is left
unchanged. -/
def amd_write_tracked (g : AmdGlobals) (dev : BlockDevice) (ibpi : IbpiPattern)
    (drive0 : AmdDrive) (sgpioW newW : World → Int × World) (w : World) :
    Option (Int × BlockDevice × World) :=
  (amd_write g dev ibpi drive0 sgpioW newW w).map fun r =>
    (r.1, if r.1 = STATUS_SUCCESS then { dev with ibpi_prev := ibpi } else dev, r.2)

/-- The value computed by the modify phase of `_set_ipmi_register`
for a current status byte `old` and bay bitmask `bay`. -/
def modifiedStatus (enable : Bool) (old : Nat) (bay : Int) : Nat :=
  if enable then c_uint8ofInt (Int.lor (Int.ofNat (old % 256)) bay)
  else c_uint8ofInt (Int.land (Int.ofNat (old % 256)) (Int.not bay))

theorem int_lor_ofNat (a b : Nat) : Int.lor (Int.ofNat a) (Int.ofNat b) = Int.ofNat (a ||| b) :=
  rfl

theorem int_zero_lor (e : Int) : Int.lor 0 e = e := by
  cases e with
  | ofNat n =>
    show Int.lor (Int.ofNat 0) (Int.ofNat n) = Int.ofNat n
    rw [int_lor_ofNat]
    simp
  | negSucc n =>
    show Int.lor (Int.ofNat 0) (Int.negSucc n) = Int.negSucc n
    rw [show Int.lor (Int.ofNat 0) (Int.negSucc n) = Int.negSucc (Nat.ldiff n 0) from rfl]
    simp [Nat.ldiff]

theorem int_lor_zero (e : Int) : Int.lor e 0 = e := by
  cases e with
  | ofNat n =>
    show Int.lor (Int.ofNat n) (Int.ofNat 0) = Int.ofNat n
    rw [int_lor_ofNat]
    simp
  | negSucc n =>
    show Int.lor (Int.negSucc n) (Int.ofNat 0) = Int.negSucc n
    rw [show Int.lor (Int.negSucc n) (Int.ofNat 0) = Int.negSucc (Nat.ldiff n 0) from rfl]
    simp [Nat.ldiff]

/-- On nonnegative arguments `modifiedStatus` enabling is byte-truncated OR. -/
theorem modifiedStatus_enable (a b : Nat) :
    modifiedStatus true a (Int.ofNat b) = (a % 256 ||| b) % 256 :=
  rfl

/-- On nonnegative arguments `modifiedStatus` disabling is byte-truncated
AND-NOT (`Nat.ldiff`). -/
theorem modifiedStatus_disable (a b : Nat) :
    modifiedStatus false a (Int.ofNat b) = Nat.ldiff (a % 256) b % 256 :=
  rfl

/-- For a status byte below 256, `Nat.ldiff` with any mask is the same
as AND with the byte-complement of the mask. -/
theorem ldiff_and_mask (a b : Nat) (ha : a < 256) :
    Nat.ldiff a b = a &&& (255 ^^^ b % 256) := by
  apply Nat.eq_of_testBit_eq
  intro i
  rw [Nat.testBit_ldiff, Nat.testBit_land, Nat.testBit_xor]
  by_cases hi : i < 8
  · have hb : (b % 256).testBit i = b.testBit i := by
      rw [show (256 : Nat) = 2 ^ 8 by norm_num, Nat.testBit_mod_two_pow]
      simp [hi]
    have h255 : (255 : Nat).testBit i = true := by
      interval_cases i <;> decide
    rw [hb, h255]
    cases b.testBit i <;> cases a.testBit i <;> rfl
  · have ha' : a.testBit i = false := by
      refine Nat.testBit_eq_false_of_lt (lt_of_lt_of_le ha ?hle)
      calc (256 : Nat) = 2 ^ 8 := by norm_num
        _ ≤ 2 ^ i := Nat.pow_le_pow_right (by norm_num) (by omega)
    rw [ha']
    rfl

/-- `Nat.ldiff` of a byte stays below 256. -/
theorem ldiff_lt_256 (a b : Nat) (ha : a < 256) : Nat.ldiff a b < 256 := by
  rw [ldiff_and_mask a b ha]
  exact lt_of_le_of_lt (Nat.and_le_left) ha

/-- Kernel-computable form of the disable case of `modifiedStatus` on a
nonnegative bay bitmask. -/
theorem modifiedStatus_disable_mask (a b : Nat) :
    modifiedStatus false a (Int.ofNat b) = (a % 256) &&& (255 ^^^ b % 256) := by
  rw [modifiedStatus_disable, ldiff_and_mask _ _ (Nat.mod_lt _ (by norm_num))]
  exact Nat.mod_eq_of_lt
    (lt_of_le_of_lt Nat.and_le_left (Nat.mod_lt _ (by norm_num)))

/-- Unfolding of `_set_ipmi_register` when the transport succeeds on
both the read and the write call. -/
theorem set_reg_ok (enable : Bool) (reg : Nat) (bay : Int) (w : World)
    (h1 : w.sched w.calls = 0) (h2 : w.sched (w.calls + 1) = 0) :
    _set_ipmi_register enable reg bay w =
      (0, ⟨fun r => if r = reg then modifiedStatus enable (w.regs reg) bay else w.regs r,
           w.sched, w.calls + 2,
           w.log ++ [IpmiOp.regRead [0x6c, 0x1, 0x0, 0x0, reg] reg,
             IpmiOp.regWrite [0x6c, 0x1, 0x0, 0x0, modifiedStatus enable (w.regs reg) bay]
               reg (modifiedStatus enable (w.regs reg) bay)]⟩) := by
  simp [_set_ipmi_register, h1, h2, modifiedStatus]

/-- Unfolding of `_set_ipmi_register` when the transport fails already
on the read call: no register is modified, only the read is logged. -/
theorem set_reg_read_fail (enable : Bool) (reg : Nat) (bay : Int) (w : World)
    (h1 : w.sched w.calls ≠ 0) :
    _set_ipmi_register enable reg bay w =
      (w.sched w.calls,
       ⟨w.regs, w.sched, w.calls + 1,
        w.log ++ [IpmiOp.regRead [0x6c, 0x1, 0x0, 0x0, reg] reg]⟩) := by
  simp [_set_ipmi_register, h1]

/-- `_set_ipmi_register` never touches a register other than `reg`,
whatever the transport does. -/
theorem set_reg_touches_only (enable : Bool) (reg : Nat) (bay : Int) (w : World) :
    ∀ r, r ≠ reg → (_set_ipmi_register enable reg bay w).2.regs r = w.regs r := by
  intro r hr
  simp only [_set_ipmi_register]
  split
  · rfl
  · split
    · rfl
    · simp [hr]

/-- Every `_set_ipmi_register` call logs exactly one read of `reg`
(followed, when the read succeeds, by one write to `reg`). -/
theorem set_reg_log (enable : Bool) (reg : Nat) (bay : Int) (w : World) :
    readRegs ((_set_ipmi_register enable reg bay w).2.log.drop w.log.length) = [reg] ∧
      ∀ p ∈ writeOps ((_set_ipmi_register enable reg bay w).2.log.drop w.log.length),
        p.1 = reg := by
  simp only [_set_ipmi_register]
  split
  · simp [readRegs, writeOps]
  · split
    · simp [readRegs, writeOps, List.append_assoc]
    · simp [readRegs, writeOps, List.append_assoc]

/-- C2: for every bay bitmask and current status byte, the modify phase
of the register read-modify-write computes the written value as
`old_status | bay_bitmask` when enabling and `old_status & ~bay_bitmask`
when disabling, and nothing else happens between the read and the
write: the only logged transactions are the one read of `reg` and the
one write of exactly that value to `reg`, which also becomes the
register's new contents. -/
theorem c2_modify_phase (enable : Bool) (old bay reg : Nat) (w : World)
    (hold : w.regs reg = old) (ho : old < 256) (hb : bay < 256)
    (h1 : w.sched w.calls = 0) (h2 : w.sched (w.calls + 1) = 0) :
    (_set_ipmi_register enable reg (Int.ofNat bay) w).1 = 0 ∧
    (_set_ipmi_register enable reg (Int.ofNat bay) w).2.regs reg =
      (if enable then old ||| bay else old &&& (255 ^^^ bay)) ∧
    writeOps ((_set_ipmi_register enable reg (Int.ofNat bay) w).2.log.drop w.log.length) =
      [(reg, if enable then old ||| bay else old &&& (255 ^^^ bay))] ∧
    readRegs ((_set_ipmi_register enable reg (Int.ofNat bay) w).2.log.drop w.log.length) =
      [reg] := by
  have h8 : (256 : Nat) = 2 ^ 8 := by norm_num
  have key : modifiedStatus enable (w.regs reg) (Int.ofNat bay) =
      (if enable then old ||| bay else old &&& (255 ^^^ bay)) := by
    subst hold
    cases enable
    · rw [modifiedStatus_disable, Nat.mod_eq_of_lt ho, ldiff_and_mask _ _ ho,
        Nat.mod_eq_of_lt hb]
      have hlt : (w.regs reg) &&& (255 ^^^ bay) < 256 :=
        lt_of_le_of_lt Nat.and_le_left ho
      simp [Nat.mod_eq_of_lt hlt]
    · rw [modifiedStatus_enable, Nat.mod_eq_of_lt ho]
      have hlt : (w.regs reg) ||| bay < 256 := by
        rw [h8] at ho hb ⊢
        exact Nat.or_lt_two_pow ho hb
      simp [Nat.mod_eq_of_lt hlt]
  rw [set_reg_ok _ _ _ _ h1 h2, key]
  simp [readRegs, writeOps, List.drop_left]

/-- Witness for `c2_modify_phase` at a concrete input. -/
theorem c2_modify_phase_witness :
    (_set_ipmi_register true 0x41 (Int.ofNat 2) ⟨fun _ => 5, fun _ => 0, 0, []⟩).2.regs 0x41 = 7 := by
  have h := c2_modify_phase true 5 2 0x41 ⟨fun _ => 5, fun _ => 0, 0, []⟩ rfl
    (by norm_num) (by norm_num) rfl rfl
  simpa using h.2.1

/-- C1 as stated is false at a concrete input: with bay index 1
(pattern locate, register 0), a reliable transport and no intervening
writers, if bay 1's bit is already set in the register (prior byte 1),
enabling and then disabling leaves the bit cleared, not restored to its
prior state. -/
theorem c1_counterexample :
    ((_set_ipmi_register false 0 (Int.ofNat 1)
        (_set_ipmi_register true 0 (Int.ofNat 1) ⟨fun _ => 1, fun _ => 0, 0, []⟩).2).2.regs 0).testBit 0 ≠
      ((⟨fun _ => 1, fun _ => 0, 0, []⟩ : World).regs 0).testBit 0 := by
  have hval : (_set_ipmi_register false 0 (Int.ofNat 1)
      (_set_ipmi_register true 0 (Int.ofNat 1)
        (⟨fun _ => 1, fun _ => 0, 0, []⟩ : World)).2).2.regs 0 = 0 := by
    rw [set_reg_ok true 0 (Int.ofNat 1) ⟨fun _ => 1, fun _ => 0, 0, []⟩ rfl rfl]
    rw [set_reg_ok false 0 (Int.ofNat 1) _ rfl rfl]
    simp only [modifiedStatus_enable, modifiedStatus_disable_mask]
    norm_num
  rw [hval]
  decide

/-- C1 amended: for a bay index `d` in `[1,8]` and a reliable
transport, `set_led(d, P, enable=true)` followed immediately by
`set_led(d, P, enable=false)` clears bay `d`'s bit of the register and
leaves every other bit (and every other register) unchanged; the prior
byte is restored exactly when bay `d`'s bit was clear beforehand. -/
theorem c1_round_trip (d reg : Nat) (w : World) (hd1 : 1 ≤ d) (hd8 : d ≤ 8)
    (hr : w.regs reg < 256) (hs : ∀ n, w.sched n = 0) :
    let bay := Int.ofNat (2 ^ (d - 1))
    let r1 := _set_ipmi_register true reg bay w
    let r2 := _set_ipmi_register false reg bay r1.2
    r1.1 = 0 ∧ r2.1 = 0 ∧
    (∀ r, r ≠ reg → r2.2.regs r = w.regs r) ∧
    (r2.2.regs reg).testBit (d - 1) = false ∧
    (∀ i, i ≠ d - 1 → (r2.2.regs reg).testBit i = (w.regs reg).testBit i) ∧
    (r2.2.regs reg = w.regs reg ↔ (w.regs reg).testBit (d - 1) = false) := by
  intro bay r1 r2
  have h8 : (256 : Nat) = 2 ^ 8 := by norm_num
  have hb256 : (2 : Nat) ^ (d - 1) < 256 := by
    calc (2 : Nat) ^ (d - 1) ≤ 2 ^ 7 := Nat.pow_le_pow_right (by norm_num) (by omega)
      _ < 256 := by norm_num
  have hor : w.regs reg ||| 2 ^ (d - 1) < 256 := by
    rw [h8] at hr hb256 ⊢
    exact Nat.or_lt_two_pow hr hb256
  have e_eq : modifiedStatus true (w.regs reg) bay = w.regs reg ||| 2 ^ (d - 1) := by
    rw [modifiedStatus_enable, Nat.mod_eq_of_lt hr, Nat.mod_eq_of_lt hor]
  have h1 := set_reg_ok true reg bay w (hs _) (hs _)
  have hr1regs : r1.2.regs reg = w.regs reg ||| 2 ^ (d - 1) := by
    rw [show r1 = _ from h1]
    simp [e_eq]
  have hr1rc : r1.1 = 0 := by rw [show r1 = _ from h1]
  have hr1sched : r1.2.sched = w.sched := by rw [show r1 = _ from h1]
  have h2 := set_reg_ok false reg bay r1.2
    (by rw [hr1sched]; exact hs _) (by rw [hr1sched]; exact hs _)
  have f_eq : modifiedStatus false (r1.2.regs reg) bay =
      Nat.ldiff (w.regs reg ||| 2 ^ (d - 1)) (2 ^ (d - 1)) := by
    rw [hr1regs, modifiedStatus_disable, Nat.mod_eq_of_lt hor,
      Nat.mod_eq_of_lt (ldiff_lt_256 _ _ hor)]
  have hr2regs : r2.2.regs reg = Nat.ldiff (w.regs reg ||| 2 ^ (d - 1)) (2 ^ (d - 1)) := by
    rw [show r2 = _ from h2]
    simp [f_eq]
  have hbit : ∀ i, (r2.2.regs reg).testBit i =
      (((w.regs reg).testBit i || (2 ^ (d - 1)).testBit i) && !(2 ^ (d - 1)).testBit i) := by
    intro i
    rw [hr2regs, Nat.testBit_ldiff, Nat.testBit_lor]
  refine ⟨hr1rc, by rw [show r2 = _ from h2], ?_, ?_, ?_, ?_⟩
  · intro r hrr
    have t2 := set_reg_touches_only false reg bay r1.2 r hrr
    have t1 := set_reg_touches_only true reg bay w r hrr
    exact t2.trans t1
  · rw [hbit (d - 1), Nat.testBit_two_pow_self]
    simp
  · intro i hi
    rw [hbit i, Nat.testBit_two_pow_of_ne (fun h => hi h.symm)]
    simp
  · constructor
    · intro heq
      have := congrArg (fun n => n.testBit (d - 1)) heq
      simp only at this
      rw [← this, hbit (d - 1), Nat.testBit_two_pow_self]
      simp
    · intro hclear
      apply Nat.eq_of_testBit_eq
      intro i
      by_cases hi : i = d - 1
      · rw [hi, hbit (d - 1), Nat.testBit_two_pow_self, hclear]
        simp
      · rw [hbit i, Nat.testBit_two_pow_of_ne (fun h => hi h.symm)]
        simp

/-- Witness for `c1_round_trip` at a concrete input: bay index 3
(bitmask 4), register 0x44, prior byte 3 with bay 3's bit clear; the
round trip restores the byte. -/
theorem c1_round_trip_witness :
    (_set_ipmi_register false 0x44 (Int.ofNat (2 ^ 2))
        (_set_ipmi_register true 0x44 (Int.ofNat (2 ^ 2))
          ⟨fun _ => 3, fun _ => 0, 0, []⟩).2).2.regs 0x44 =
      (⟨fun _ => 3, fun _ => 0, 0, []⟩ : World).regs 0x44 := by
  have h := c1_round_trip 3 0x44 ⟨fun _ => 3, fun _ => 0, 0, []⟩
    (by norm_num) (by norm_num) (by norm_num) (fun _ => rfl)
  exact h.2.2.2.2.2.mpr (by decide)

/-- C3 as stated is false at a concrete input: a slot registry that
resolves the drive to bay index 9 (outside `[1,8]`) makes
`_get_amd_ipmi_drive` succeed (return code 0, kind and bitmask
assigned) with bitmask `1 << 8 = 256` instead of reporting a
resolution error. -/
theorem c3_counterexample :
    _get_amd_ipmi_drive
        ⟨[FsNode.mk (String.toList "nvme0") true []],
         String.toList "/a/0000:e3:00.0",
         [⟨String.toList "9", some (String.toList "0000:e3:00")⟩]⟩
        ⟨0, 0, AmdDevKind.sata⟩ =
      some (0, ⟨9, 256, AmdDevKind.nvme⟩) ∧ ¬((9 : Int) ≤ 8) := by
  constructor
  · have hfind : _find_file_path nvmeMarker [FsNode.mk (String.toList "nvme0") true []] = true := by
      simp [_find_file_path, nvmeMarker]
    simp only [_get_amd_ipmi_drive, hfind, if_true]
    rfl
  · decide

/-- C3 amended: resolution reports an error exactly for a negative
resolved port (registry lookup or parse failure): then bay bitmask and
device kind stay unassigned.  For any port in `[1,8]` the bitmask is
`1 << (port-1) = 2^(port-1)` as claimed, but the same holds with no
range check for every port up to the shift width, so out-of-range
ports such as 9 produce a bitmask (256) silently rather than an error;
port 0 makes the shift count negative, which is undefined behavior. -/
theorem c3_bay_bitmask (env : ResolveEnv) (drive0 : AmdDrive) :
    let port := _get_ipmi_nvme_port env.foundPath env.slots
    (_find_file_path (nvmeMarker) env.tree = false →
      _get_amd_ipmi_drive env drive0 = some (0, drive0)) ∧
    (_find_file_path (nvmeMarker) env.tree = true → port < 0 →
      _get_amd_ipmi_drive env drive0 = some (-1, { drive0 with port := port })) ∧
    (_find_file_path (nvmeMarker) env.tree = true → 1 ≤ port → port ≤ 30 →
      _get_amd_ipmi_drive env drive0 =
        some (0, ⟨port, (2 : Int) ^ (port.toNat - 1), AmdDevKind.nvme⟩)) ∧
    (_find_file_path (nvmeMarker) env.tree = true → port = 0 →
      _get_amd_ipmi_drive env drive0 = none) := by
  intro port
  refine ⟨?_, ?_, ?_, ?_⟩
  · intro hf
    simp [_get_amd_ipmi_drive, hf]
  · intro hf hneg
    simp only [_get_amd_ipmi_drive, hf, if_true]
    rw [if_pos hneg]
  · intro hf h1 h30
    have hnotneg : ¬(port < 0) := by omega
    have hshift : c_shl1 (port - 1) = some ((2 : Int) ^ (port.toNat - 1)) := by
      unfold c_shl1
      rw [if_pos (by omega)]
      congr 1
      congr 1
      omega
    simp only [_get_amd_ipmi_drive, hf, if_true]
    rw [if_neg hnotneg, hshift]
  · intro hf h0
    have hshift : c_shl1 (port - 1) = none := by
      unfold c_shl1
      rw [if_neg (by omega)]
    simp only [_get_amd_ipmi_drive, hf, if_true]
    rw [if_neg (by omega), hshift]

/-- Witness for `c3_bay_bitmask` at a concrete input: a registry
resolving to bay 3 yields bitmask 4. -/
theorem c3_bay_bitmask_witness :
    _get_amd_ipmi_drive
        ⟨[FsNode.mk (String.toList "nvme0") true []],
         String.toList "/a/0000:e3:00.0",
         [⟨String.toList "3", some (String.toList "0000:e3:00")⟩]⟩
        ⟨0, 0, AmdDevKind.sata⟩ =
      some (0, ⟨3, 4, AmdDevKind.nvme⟩) := by
  have h := c3_bay_bitmask
    ⟨[FsNode.mk (String.toList "nvme0") true []],
     String.toList "/a/0000:e3:00.0",
     [⟨String.toList "3", some (String.toList "0000:e3:00")⟩]⟩
    ⟨0, 0, AmdDevKind.sata⟩
  have h3 := h.2.2.1 (by simp [_find_file_path, nvmeMarker]) (by decide) (by decide)
  rw [h3]
  rfl

/-- Return code and call-counter evolution of one `_set_ipmi_register`
call, which depend only on the transport schedule. -/
def rcOf (sched : Nat → Int) (calls : Nat) : Int × Nat :=
  let r := sched calls
  if r ≠ 0 then (r, calls + 1)
  else
    let r2 := sched (calls + 1)
    if r2 ≠ 0 then (r2, calls + 2) else (0, calls + 2)

theorem set_reg_rc_calls (enable : Bool) (reg : Nat) (bay : Int) (w : World) :
    (_set_ipmi_register enable reg bay w).1 = (rcOf w.sched w.calls).1 ∧
    (_set_ipmi_register enable reg bay w).2.calls = (rcOf w.sched w.calls).2 ∧
    (_set_ipmi_register enable reg bay w).2.sched = w.sched := by
  simp only [_set_ipmi_register, rcOf]
  split
  · exact ⟨rfl, rfl, rfl⟩
  · split
    · exact ⟨rfl, rfl, rfl⟩
    · exact ⟨rfl, rfl, rfl⟩

/-- Each `_set_ipmi_register` call appends to the log a block whose
reads are exactly one read of `reg`. -/
theorem set_reg_log_append (enable : Bool) (reg : Nat) (bay : Int) (w : World) :
    ∃ t, (_set_ipmi_register enable reg bay w).2.log = w.log ++ t ∧ readRegs t = [reg] := by
  simp only [_set_ipmi_register]
  split
  · exact ⟨_, rfl, by simp [readRegs]⟩
  · split
    · exact ⟨[IpmiOp.regRead [0x6c, 0x1, 0x0, 0x0, reg] reg,
        IpmiOp.regWrite [0x6c, 0x1, 0x0, 0x0, modifiedStatus enable (w.regs reg) bay] reg
          (modifiedStatus enable (w.regs reg) bay)],
        by rw [List.append_assoc]; exact rfl, by simp [readRegs]⟩
    · exact ⟨[IpmiOp.regRead [0x6c, 0x1, 0x0, 0x0, reg] reg,
        IpmiOp.regWrite [0x6c, 0x1, 0x0, 0x0, modifiedStatus enable (w.regs reg) bay] reg
          (modifiedStatus enable (w.regs reg) bay)],
        by rw [List.append_assoc]; exact rfl, by simp [readRegs]⟩

/-- The whole disable sequence appends reads of exactly the six
registers 0x41, 0x00, 0x01, 0x44, 0x45, 0x46 in order, whatever the
transport schedule does. -/
theorem disable_all_log (drive : AmdDrive) (w : World) :
    ∃ t, (_disable_all_ibpi_states drive w).2.log = w.log ++ t ∧
      readRegs t = [0x41, 0x00, 0x01, 0x44, 0x45, 0x46] := by
  obtain ⟨t1, hl1, hr1⟩ := set_reg_log_append false 0x41 drive.drive_bay w
  obtain ⟨t2, hl2, hr2⟩ := set_reg_log_append false 0x00 drive.drive_bay
    (_set_ipmi_register false 0x41 drive.drive_bay w).2
  obtain ⟨t3, hl3, hr3⟩ := set_reg_log_append false 0x01 drive.drive_bay
    (_set_ipmi_register false 0x00 drive.drive_bay
      (_set_ipmi_register false 0x41 drive.drive_bay w).2).2
  obtain ⟨t4, hl4, hr4⟩ := set_reg_log_append false 0x44 drive.drive_bay
    (_set_ipmi_register false 0x01 drive.drive_bay
      (_set_ipmi_register false 0x00 drive.drive_bay
        (_set_ipmi_register false 0x41 drive.drive_bay w).2).2).2
  obtain ⟨t5, hl5, hr5⟩ := set_reg_log_append false 0x45 drive.drive_bay
    (_set_ipmi_register false 0x44 drive.drive_bay
      (_set_ipmi_register false 0x01 drive.drive_bay
        (_set_ipmi_register false 0x00 drive.drive_bay
          (_set_ipmi_register false 0x41 drive.drive_bay w).2).2).2).2
  obtain ⟨t6, hl6, hr6⟩ := set_reg_log_append false 0x46 drive.drive_bay
    (_set_ipmi_register false 0x45 drive.drive_bay
      (_set_ipmi_register false 0x44 drive.drive_bay
        (_set_ipmi_register false 0x01 drive.drive_bay
          (_set_ipmi_register false 0x00 drive.drive_bay
            (_set_ipmi_register false 0x41 drive.drive_bay w).2).2).2).2).2
  refine ⟨t1 ++ t2 ++ t3 ++ t4 ++ t5 ++ t6, ?_, ?_⟩
  · simp only [_disable_all_ibpi_states, _disable_ibpi_state, amd_ibpi_ipmi_register] at *
    rw [hl6, hl5, hl4, hl3, hl2, hl1]
    simp [List.append_assoc]
  · simp [readRegs, List.filterMap_append] at *
    simp [hr1, hr2, hr3, hr4, hr5, hr6]

/-- C4 as stated is false at a concrete input: with a transport whose
5th call (the read for the 3rd register) fails with code 2 and whose
6th call (the read for the 4th register) fails with code 1,
`_disable_all_ibpi_states` returns `2 | 1 = 3`: the OR-accumulation of
the return codes, not the first error (2) encountered. -/
theorem c4_counterexample :
    (_disable_all_ibpi_states ⟨1, 1, AmdDevKind.nvme⟩
      ⟨fun _ => 0, fun n => if n = 4 then 2 else if n = 5 then 1 else 0, 0, []⟩).1 = 3 ∧
    (_disable_ibpi_state ⟨1, 1, AmdDevKind.nvme⟩ IbpiPattern.locateOff
      (_disable_ibpi_state ⟨1, 1, AmdDevKind.nvme⟩ IbpiPattern.locate
        (_disable_ibpi_state ⟨1, 1, AmdDevKind.nvme⟩ IbpiPattern.pfa
          ⟨fun _ => 0, fun n => if n = 4 then 2 else if n = 5 then 1 else 0, 0, []⟩).2).2).1 = 2 ∧
    ¬((3 : Int) = 2) := by
  refine ⟨rfl, rfl, by decide⟩

/-- C4 amended: `_disable_all_ibpi_states` always attempts, in order,
exactly the six registers PFA (0x41), locate (0x00), locate-off (0x01),
failed-drive (0x44), failed-array (0x45) and rebuild (0x46) — hotspare
excluded — regardless of failures, and returns the bitwise OR of the six
return codes (which coincides with the first error only when a single
operation fails): in particular, when only the 3rd register operation
fails (its read failing with code `e`), registers 4-6 are still
attempted and the result is exactly `e`. -/
theorem c4_disable_all (drive : AmdDrive) (w : World) :
    (readRegs ((_disable_all_ibpi_states drive w).2.log.drop w.log.length) =
      [0x41, 0x00, 0x01, 0x44, 0x45, 0x46]) ∧
    ((_disable_all_ibpi_states drive w).1 =
      Int.lor (Int.lor (Int.lor (Int.lor (Int.lor
        (_disable_ibpi_state drive IbpiPattern.pfa w).1
        (_disable_ibpi_state drive IbpiPattern.locate
          (_disable_ibpi_state drive IbpiPattern.pfa w).2).1)
        (_disable_ibpi_state drive IbpiPattern.locateOff
          (_disable_ibpi_state drive IbpiPattern.locate
            (_disable_ibpi_state drive IbpiPattern.pfa w).2).2).1)
        (_disable_ibpi_state drive IbpiPattern.failedDrive
          (_disable_ibpi_state drive IbpiPattern.locateOff
            (_disable_ibpi_state drive IbpiPattern.locate
              (_disable_ibpi_state drive IbpiPattern.pfa w).2).2).2).1)
        (_disable_ibpi_state drive IbpiPattern.failedArray
          (_disable_ibpi_state drive IbpiPattern.failedDrive
            (_disable_ibpi_state drive IbpiPattern.locateOff
              (_disable_ibpi_state drive IbpiPattern.locate
                (_disable_ibpi_state drive IbpiPattern.pfa w).2).2).2).2).1)
        (_disable_ibpi_state drive IbpiPattern.rebuild
          (_disable_ibpi_state drive IbpiPattern.failedArray
            (_disable_ibpi_state drive IbpiPattern.failedDrive
              (_disable_ibpi_state drive IbpiPattern.locateOff
                (_disable_ibpi_state drive IbpiPattern.locate
                  (_disable_ibpi_state drive IbpiPattern.pfa w).2).2).2).2).2).1) ∧
    (∀ e : Int, e ≠ 0 →
      (∀ n, w.sched n = if n = w.calls + 4 then e else 0) →
      (_disable_all_ibpi_states drive w).1 = e) := by
  refine ⟨?_, rfl, ?_⟩
  · obtain ⟨t, hl, hr⟩ := disable_all_log drive w
    rw [hl, List.drop_left, hr]
  · intro e he hs
    have hs0 : w.sched w.calls = 0 := by
      have := hs w.calls
      rw [if_neg (by omega)] at this
      exact this
    have hsk : ∀ k, k ≠ 4 → w.sched (w.calls + k) = 0 := by
      intro k hk
      have := hs (w.calls + k)
      rw [if_neg (by omega)] at this
      exact this
    have hs4 : w.sched (w.calls + 4) = e := by
      have := hs (w.calls + 4)
      rw [if_pos rfl] at this
      exact this
    have r0 : rcOf w.sched w.calls = (0, w.calls + 2) := by
      simp [rcOf, hs0, hsk 1 (by omega), Prod.ext_iff]
    have r2 : rcOf w.sched (w.calls + 2) = (0, w.calls + 4) := by
      simp [rcOf, hsk 2 (by omega), show w.calls + 2 + 1 = w.calls + 3 by omega,
        hsk 3 (by omega), Prod.ext_iff]
    have r4 : rcOf w.sched (w.calls + 4) = (e, w.calls + 5) := by
      simp [rcOf, hs4, he, Prod.ext_iff]
    have r5 : rcOf w.sched (w.calls + 5) = (0, w.calls + 7) := by
      simp [rcOf, hsk 5 (by omega), show w.calls + 5 + 1 = w.calls + 6 by omega,
        hsk 6 (by omega), Prod.ext_iff]
    have r7 : rcOf w.sched (w.calls + 7) = (0, w.calls + 9) := by
      simp [rcOf, hsk 7 (by omega), show w.calls + 7 + 1 = w.calls + 8 by omega,
        hsk 8 (by omega), Prod.ext_iff]
    have r9 : rcOf w.sched (w.calls + 9) = (0, w.calls + 11) := by
      simp [rcOf, hsk 9 (by omega), show w.calls + 9 + 1 = w.calls + 10 by omega,
        hsk 10 (by omega), Prod.ext_iff]
    simp only [_disable_all_ibpi_states, _disable_ibpi_state]
    obtain ⟨a1, b1, c1⟩ := set_reg_rc_calls false (amd_ibpi_ipmi_register .pfa)
      drive.drive_bay w
    obtain ⟨a2, b2, c2⟩ := set_reg_rc_calls false (amd_ibpi_ipmi_register .locate)
      drive.drive_bay (_set_ipmi_register false (amd_ibpi_ipmi_register .pfa)
        drive.drive_bay w).2
    obtain ⟨a3, b3, c3⟩ := set_reg_rc_calls false (amd_ibpi_ipmi_register .locateOff)
      drive.drive_bay (_set_ipmi_register false (amd_ibpi_ipmi_register .locate)
        drive.drive_bay (_set_ipmi_register false (amd_ibpi_ipmi_register .pfa)
          drive.drive_bay w).2).2
    obtain ⟨a4, b4, c4⟩ := set_reg_rc_calls false (amd_ibpi_ipmi_register .failedDrive)
      drive.drive_bay (_set_ipmi_register false (amd_ibpi_ipmi_register .locateOff)
        drive.drive_bay (_set_ipmi_register false (amd_ibpi_ipmi_register .locate)
          drive.drive_bay (_set_ipmi_register false (amd_ibpi_ipmi_register .pfa)
            drive.drive_bay w).2).2).2
    obtain ⟨a5, b5, c5⟩ := set_reg_rc_calls false (amd_ibpi_ipmi_register .failedArray)
      drive.drive_bay (_set_ipmi_register false (amd_ibpi_ipmi_register .failedDrive)
        drive.drive_bay (_set_ipmi_register false (amd_ibpi_ipmi_register .locateOff)
          drive.drive_bay (_set_ipmi_register false (amd_ibpi_ipmi_register .locate)
            drive.drive_bay (_set_ipmi_register false (amd_ibpi_ipmi_register .pfa)
              drive.drive_bay w).2).2).2).2
    obtain ⟨a6, b6, c6⟩ := set_reg_rc_calls false (amd_ibpi_ipmi_register .rebuild)
      drive.drive_bay (_set_ipmi_register false (amd_ibpi_ipmi_register .failedArray)
        drive.drive_bay (_set_ipmi_register false (amd_ibpi_ipmi_register .failedDrive)
          drive.drive_bay (_set_ipmi_register false (amd_ibpi_ipmi_register .locateOff)
            drive.drive_bay (_set_ipmi_register false (amd_ibpi_ipmi_register .locate)
              drive.drive_bay (_set_ipmi_register false (amd_ibpi_ipmi_register .pfa)
                drive.drive_bay w).2).2).2).2).2
    rw [a1, a2, a3, a4, a5, a6]
    simp only [c1, c2, c3, c4, c5, c6, b1, b2, b3, b4, b5, b6, r0, r2, r4, r5, r7, r9]
    simp only [int_zero_lor, int_lor_zero]

/-- Witness for `c4_disable_all` at a concrete input: only the 3rd
register read fails (code 7) and the sequence returns exactly 7. -/
theorem c4_disable_all_witness :
    (_disable_all_ibpi_states ⟨1, 1, AmdDevKind.nvme⟩
      ⟨fun _ => 0, fun n => if n = 4 then 7 else 0, 0, []⟩).1 = 7 := by
  have h := c4_disable_all ⟨1, 1, AmdDevKind.nvme⟩
    ⟨fun _ => 0, fun n => if n = 4 then 7 else 0, 0, []⟩
  exact h.2.2 7 (by decide) (fun n => by simp)

/-- C5 as stated is false at a concrete input: with a transport whose
write phases fail, the first `write(device, locate)` issues a full
read-modify-write pair, fails, and leaves the last-applied pattern
unchanged, so the immediately following `write(device, locate)` issues
a second pair: the two successive calls issue 2 read-modify-write
pairs (2 register writes), not at most one. -/
theorem c5_counterexample :
    ((amd_write_tracked ⟨AmdLedInterface.ipmi, AmdIpmiPlatform.daytonaX⟩
        ⟨IbpiPattern.normal,
         ⟨[FsNode.mk (String.toList "nvme0") true []],
          String.toList "/a/0000:e3:00.0",
          [⟨String.toList "1", some (String.toList "0000:e3:00")⟩]⟩⟩
        IbpiPattern.locate ⟨0, 0, AmdDevKind.sata⟩
        (fun w => (0, w)) (fun w => (0, w))
        ⟨fun _ => 0, fun n => if n = 1 then 5 else if n = 3 then 5 else 0, 0, []⟩).bind
      fun t => amd_write_tracked ⟨AmdLedInterface.ipmi, AmdIpmiPlatform.daytonaX⟩
        t.2.1 IbpiPattern.locate ⟨0, 0, AmdDevKind.sata⟩
        (fun w => (0, w)) (fun w => (0, w)) t.2.2).map
      (fun t => (writeOps t.2.2.log).length) = some 2 ∧ ¬((2 : Nat) ≤ 1) := by
  have hfind : _find_file_path nvmeMarker [FsNode.mk (String.toList "nvme0") true []] = true := by
    simp [_find_file_path, nvmeMarker]
  have h1 : amd_write_tracked ⟨AmdLedInterface.ipmi, AmdIpmiPlatform.daytonaX⟩
      ⟨IbpiPattern.normal,
       ⟨[FsNode.mk (String.toList "nvme0") true []],
        String.toList "/a/0000:e3:00.0",
        [⟨String.toList "1", some (String.toList "0000:e3:00")⟩]⟩⟩
      IbpiPattern.locate ⟨0, 0, AmdDevKind.sata⟩
      (fun w => (0, w)) (fun w => (0, w))
      ⟨fun _ => 0, fun n => if n = 1 then 5 else if n = 3 then 5 else 0, 0, []⟩ =
      some (5,
        ⟨IbpiPattern.normal,
         ⟨[FsNode.mk (String.toList "nvme0") true []],
          String.toList "/a/0000:e3:00.0",
          [⟨String.toList "1", some (String.toList "0000:e3:00")⟩]⟩⟩,
        ⟨fun _ => 0, fun n => if n = 1 then 5 else if n = 3 then 5 else 0, 2,
         [IpmiOp.regRead [0x6c, 0x1, 0x0, 0x0, 0] 0,
          IpmiOp.regWrite [0x6c, 0x1, 0x0, 0x0, 1] 0 1]⟩) := by
    simp only [amd_write_tracked, amd_write, _amd_ipmi_sm_write, _get_amd_ipmi_drive, hfind,
      if_true]
    rfl
  have h2 : amd_write_tracked ⟨AmdLedInterface.ipmi, AmdIpmiPlatform.daytonaX⟩
      ⟨IbpiPattern.normal,
       ⟨[FsNode.mk (String.toList "nvme0") true []],
        String.toList "/a/0000:e3:00.0",
        [⟨String.toList "1", some (String.toList "0000:e3:00")⟩]⟩⟩
      IbpiPattern.locate ⟨0, 0, AmdDevKind.sata⟩
      (fun w => (0, w)) (fun w => (0, w))
      ⟨fun _ => 0, fun n => if n = 1 then 5 else if n = 3 then 5 else 0, 2,
       [IpmiOp.regRead [0x6c, 0x1, 0x0, 0x0, 0] 0,
        IpmiOp.regWrite [0x6c, 0x1, 0x0, 0x0, 1] 0 1]⟩ =
      some (5,
        ⟨IbpiPattern.normal,
         ⟨[FsNode.mk (String.toList "nvme0") true []],
          String.toList "/a/0000:e3:00.0",
          [⟨String.toList "1", some (String.toList "0000:e3:00")⟩]⟩⟩,
        ⟨fun _ => 0, fun n => if n = 1 then 5 else if n = 3 then 5 else 0, 4,
         [IpmiOp.regRead [0x6c, 0x1, 0x0, 0x0, 0] 0,
          IpmiOp.regWrite [0x6c, 0x1, 0x0, 0x0, 1] 0 1,
          IpmiOp.regRead [0x6c, 0x1, 0x0, 0x0, 0] 0,
          IpmiOp.regWrite [0x6c, 0x1, 0x0, 0x0, 1] 0 1]⟩) := by
    simp only [amd_write_tracked, amd_write, _amd_ipmi_sm_write, _get_amd_ipmi_drive, hfind,
      if_true]
    rfl
  constructor
  · rw [h1, Option.some_bind, h2, Option.map_some']
    rfl
  · decide

/-- C5 amended: `write(device, P)` returns success immediately with no
IPMI traffic when `P` equals the device's last-applied pattern; a
successful tracked write records `P` as last applied (a failed one
leaves the device unchanged); hence a second `write(device, P)`
immediately after a successful one is a no-op, so the IPMI backend is
invoked at most once across the two calls when the first succeeds.
(When the first call fails, the second call re-invokes the backend, and
a single non-no-op write may itself issue several read-modify-write
pairs — see the counterexample.) -/
theorem c5_write_dedup (g : AmdGlobals) (dev : BlockDevice) (ibpi : IbpiPattern)
    (drive0 : AmdDrive) (f1 f2 : World → Int × World) (w : World) :
    (ibpi = dev.ibpi_prev →
      amd_write g dev ibpi drive0 f1 f2 w = some (STATUS_SUCCESS, w)) ∧
    (∀ rc dev' w', amd_write_tracked g dev ibpi drive0 f1 f2 w = some (rc, dev', w') →
      (rc = STATUS_SUCCESS → dev'.ibpi_prev = ibpi) ∧
      (rc ≠ STATUS_SUCCESS → dev' = dev)) ∧
    (∀ dev' w', amd_write_tracked g dev ibpi drive0 f1 f2 w =
        some (STATUS_SUCCESS, dev', w') →
      amd_write_tracked g dev' ibpi drive0 f1 f2 w' =
        some (STATUS_SUCCESS, dev', w')) := by
  refine ⟨?_, ?_, ?_⟩
  · intro h
    simp [amd_write, h]
  · intro rc dev' w' h
    simp only [amd_write_tracked, Option.map_eq_some'] at h
    obtain ⟨⟨rc0, w0⟩, hw, heq⟩ := h
    simp only [Prod.mk.injEq] at heq
    obtain ⟨h1, h2, h3⟩ := heq
    subst h1
    constructor
    · intro hrc
      rw [← h2, if_pos hrc]
    · intro hrc
      rw [← h2, if_neg hrc]
  · intro dev' w' h
    simp only [amd_write_tracked, Option.map_eq_some'] at h
    obtain ⟨⟨rc0, w0⟩, hw, heq⟩ := h
    simp only [Prod.mk.injEq] at heq
    obtain ⟨h1, h2, h3⟩ := heq
    have hprev : dev'.ibpi_prev = ibpi := by
      rw [← h2, h1, if_pos rfl]
    have hfirst : amd_write g dev' ibpi drive0 f1 f2 w' = some (STATUS_SUCCESS, w') := by
      simp [amd_write, hprev]
    simp only [amd_write_tracked, hfirst, Option.map_some']
    obtain ⟨p, e⟩ := dev'
    have hp : p = ibpi := hprev
    subst hp
    simp

/-- Witness for `c5_write_dedup` at a concrete input: writing the
locate pattern when locate is already the last-applied pattern returns
success with the world untouched. -/
theorem c5_write_dedup_witness :
    amd_write ⟨AmdLedInterface.ipmi, AmdIpmiPlatform.daytonaX⟩
      ⟨IbpiPattern.locate, ⟨[], [], []⟩⟩ IbpiPattern.locate ⟨0, 0, AmdDevKind.sata⟩
      (fun w => (0, w)) (fun w => (0, w)) ⟨fun _ => 0, fun _ => 0, 0, []⟩ =
      some (STATUS_SUCCESS, ⟨fun _ => 0, fun _ => 0, 0, []⟩) :=
  (c5_write_dedup ⟨AmdLedInterface.ipmi, AmdIpmiPlatform.daytonaX⟩
    ⟨IbpiPattern.locate, ⟨[], [], []⟩⟩ IbpiPattern.locate ⟨0, 0, AmdDevKind.sata⟩
    (fun w => (0, w)) (fun w => (0, w)) ⟨fun _ => 0, fun _ => 0, 0, []⟩).1 rfl

/-- C6: once the drive is resolved, the IPMI write routine performs
exactly one of three actions: for normal and oneshot-normal it
delegates to the disable-all sequence; for locate-off it disables only
the locate-off register (0x01), touching no other register; for every
other pattern it enables the single register the table maps the
pattern to, reading exactly that register and touching no other. -/
theorem c6_sm_write_dispatch (env : ResolveEnv) (drive0 : AmdDrive) (ibpi : IbpiPattern)
    (w : World) (drive : AmdDrive)
    (hres : _get_amd_ipmi_drive env drive0 = some (0, drive)) :
    (ibpi = IbpiPattern.normal ∨ ibpi = IbpiPattern.oneshotNormal →
      _amd_ipmi_sm_write env drive0 ibpi w = some (_disable_all_ibpi_states drive w)) ∧
    (ibpi = IbpiPattern.locateOff →
      _amd_ipmi_sm_write env drive0 ibpi w =
        some (_set_ipmi_register false 0x01 drive.drive_bay w) ∧
      ∀ r, r ≠ 0x01 →
        (_set_ipmi_register false 0x01 drive.drive_bay w).2.regs r = w.regs r) ∧
    (ibpi ≠ IbpiPattern.normal → ibpi ≠ IbpiPattern.oneshotNormal →
     ibpi ≠ IbpiPattern.locateOff →
      _amd_ipmi_sm_write env drive0 ibpi w =
        some (_set_ipmi_register true (amd_ibpi_ipmi_register ibpi) drive.drive_bay w) ∧
      readRegs ((_set_ipmi_register true (amd_ibpi_ipmi_register ibpi)
          drive.drive_bay w).2.log.drop w.log.length) = [amd_ibpi_ipmi_register ibpi] ∧
      ∀ r, r ≠ amd_ibpi_ipmi_register ibpi →
        (_set_ipmi_register true (amd_ibpi_ipmi_register ibpi)
          drive.drive_bay w).2.regs r = w.regs r) := by
  refine ⟨?_, ?_, ?_⟩
  · intro h
    simp only [_amd_ipmi_sm_write, hres]
    rw [if_neg (by decide), if_pos h]
  · intro h
    subst h
    constructor
    · simp only [_amd_ipmi_sm_write, hres]
      rw [if_neg (by decide), if_neg (by decide)]
      simp [_disable_ibpi_state, amd_ibpi_ipmi_register]
    · intro r hr
      exact set_reg_touches_only false 0x01 drive.drive_bay w r hr
  · intro h1 h2 h3
    refine ⟨?_, (set_reg_log true (amd_ibpi_ipmi_register ibpi) drive.drive_bay w).1, ?_⟩
    · simp only [_amd_ipmi_sm_write, hres]
      rw [if_neg (by decide), if_neg (by rintro (h | h); exacts [h1 h, h2 h]), if_neg h3]
      simp [_enable_ibpi_state]
    · intro r hr
      exact set_reg_touches_only true (amd_ibpi_ipmi_register ibpi) drive.drive_bay w r hr

/-- Witness for `c6_sm_write_dispatch` at a concrete input: rebuild
enables exactly register 0x46 with the resolved bay bitmask 4. -/
theorem c6_sm_write_dispatch_witness :
    _amd_ipmi_sm_write
        ⟨[FsNode.mk (String.toList "nvme0") true []],
         String.toList "/a/0000:e3:00.0",
         [⟨String.toList "3", some (String.toList "0000:e3:00")⟩]⟩
        ⟨0, 0, AmdDevKind.sata⟩ IbpiPattern.rebuild ⟨fun _ => 0, fun _ => 0, 0, []⟩ =
      some (_set_ipmi_register true 0x46 4 ⟨fun _ => 0, fun _ => 0, 0, []⟩) := by
  have hfind : _find_file_path nvmeMarker [FsNode.mk (String.toList "nvme0") true []] = true := by
    simp [_find_file_path, nvmeMarker]
  have hres : _get_amd_ipmi_drive
      ⟨[FsNode.mk (String.toList "nvme0") true []],
       String.toList "/a/0000:e3:00.0",
       [⟨String.toList "3", some (String.toList "0000:e3:00")⟩]⟩
      ⟨0, 0, AmdDevKind.sata⟩ = some (0, ⟨3, 4, AmdDevKind.nvme⟩) := by
    simp only [_get_amd_ipmi_drive, hfind, if_true]
    rfl
  have h := c6_sm_write_dispatch
    ⟨[FsNode.mk (String.toList "nvme0") true []],
     String.toList "/a/0000:e3:00.0",
     [⟨String.toList "3", some (String.toList "0000:e3:00")⟩]⟩
    ⟨0, 0, AmdDevKind.sata⟩ IbpiPattern.rebuild ⟨fun _ => 0, fun _ => 0, 0, []⟩
    ⟨3, 4, AmdDevKind.nvme⟩ hres
  have h3 := (h.2.2 (by decide) (by decide) (by decide)).1
  simpa [amd_ibpi_ipmi_register] using h3

/-- If no entry of the tree, at any depth, has a name prefixed by
`fn`, then the directory scan reports not-found. -/
theorem find_false_of_no_entry (fn : List Char) :
    (t : List FsNode) → anyEntry (fun e => fn.isPrefixOf e.name) t = false →
      _find_file_path fn t = false
  | [], _ => by simp [_find_file_path]
  | FsNode.mk nm d ch :: rest, h => by
    simp only [anyEntry, Bool.or_eq_false_iff, FsNode.name] at h
    obtain ⟨⟨hp, hch⟩, hrest⟩ := h
    simp only [_find_file_path]
    rw [if_neg (by simp [hp]),
      find_false_of_no_entry fn ch hch, find_false_of_no_entry fn rest hrest]
    simp

/-- C10: when the drive's directory tree holds no entry whose name
begins with `nvme`, `_get_amd_ipmi_drive` returns 0 (success) without
assigning port, bay bitmask or device kind (the caller's uninitialized
record passes through unchanged), and a subsequent IPMI register write
proceeds — issuing the read of the mapped register — using the
indeterminate `drive_bay`, instead of failing with a resolution
error. -/
theorem c10_no_nvme_write_proceeds (env : ResolveEnv) (drive0 : AmdDrive) (w : World)
    (h : anyEntry (fun e => nvmeMarker.isPrefixOf e.name) env.tree = false) :
    _get_amd_ipmi_drive env drive0 = some (0, drive0) ∧
    (∀ ibpi, ibpi ≠ IbpiPattern.normal → ibpi ≠ IbpiPattern.oneshotNormal →
      ibpi ≠ IbpiPattern.locateOff →
      _amd_ipmi_sm_write env drive0 ibpi w =
        some (_set_ipmi_register true (amd_ibpi_ipmi_register ibpi) drive0.drive_bay w) ∧
      readRegs ((_set_ipmi_register true (amd_ibpi_ipmi_register ibpi)
        drive0.drive_bay w).2.log.drop w.log.length) = [amd_ibpi_ipmi_register ibpi]) := by
  have hfind : _find_file_path nvmeMarker env.tree = false :=
    find_false_of_no_entry nvmeMarker env.tree h
  have hres : _get_amd_ipmi_drive env drive0 = some (0, drive0) := by
    simp [_get_amd_ipmi_drive, hfind]
  refine ⟨hres, ?_⟩
  intro ibpi h1 h2 h3
  refine ⟨?_, (set_reg_log true (amd_ibpi_ipmi_register ibpi) drive0.drive_bay w).1⟩
  simp only [_amd_ipmi_sm_write, hres]
  rw [if_neg (by decide), if_neg (by rintro (hc | hc); exacts [h1 hc, h2 hc]), if_neg h3]
  simp [_enable_ibpi_state]

/-- Witness for `c10_no_nvme_write_proceeds` at a concrete input: a
tree with only an `ata1` entry and an uninitialized drive record with
garbage bitmask 33; the locate write proceeds with bitmask 33. -/
theorem c10_no_nvme_write_proceeds_witness :
    _amd_ipmi_sm_write
        ⟨[FsNode.mk (String.toList "ata1") true []], [], []⟩
        ⟨7, 33, AmdDevKind.sata⟩ IbpiPattern.locate ⟨fun _ => 0, fun _ => 0, 0, []⟩ =
      some (_set_ipmi_register true 0x00 33 ⟨fun _ => 0, fun _ => 0, 0, []⟩) := by
  have h := c10_no_nvme_write_proceeds
    ⟨[FsNode.mk (String.toList "ata1") true []], [], []⟩
    ⟨7, 33, AmdDevKind.sata⟩ ⟨fun _ => 0, fun _ => 0, 0, []⟩
    (by simp [anyEntry, nvmeMarker, FsNode.name, List.isPrefixOf])
  have h2 := (h.2 IbpiPattern.locate (by decide) (by decide) (by decide)).1
  simpa [amd_ibpi_ipmi_register] using h2

/-- C9: platform detection matches the firmware identity by
case-sensitive prefix against the fixed table: any identity with
prefix `DAYTONA_X` selects the IPMI interface and the DAYTONA_X
platform (dispatching the IPMI probe); the unmatched identity
`unknown-box` keeps the SGPIO default with the IPMI platform variant
left untouched (unset if it was unset); an unreadable identity file
also yields the SGPIO default and returns 0 rather than an error; the
lower-case `daytona_x` does not match (case sensitivity). -/
theorem c9_platform_detection (g0 : AmdGlobals) (a b c : Int) :
    (∀ rest : List Char,
      amd_em_enabled (some (String.toList "DAYTONA_X" ++ rest)) g0 a b c =
        (⟨AmdLedInterface.ipmi, AmdIpmiPlatform.daytonaX⟩, b)) ∧
    (amd_em_enabled (some (String.toList "unknown-box")) g0 a b c =
      (⟨AmdLedInterface.sgpio, g0.amd_ipmi_platform⟩, a)) ∧
    (amd_em_enabled none g0 a b c =
      (⟨AmdLedInterface.sgpio, g0.amd_ipmi_platform⟩, 0)) ∧
    (amd_em_enabled (some (String.toList "daytona_x")) g0 a b c =
      (⟨AmdLedInterface.sgpio, g0.amd_ipmi_platform⟩, a)) := by
  refine ⟨?_, ?_, ?_, ?_⟩
  · intro rest
    have hE : strncmpEq (String.toList "DAYTONA_X" ++ rest) (String.toList "ETHANOL_X") 9 =
        false := by
      unfold strncmpEq
      rw [List.take_append_of_le_length (by decide)]
      decide
    have hD : strncmpEq (String.toList "DAYTONA_X" ++ rest) (String.toList "DAYTONA_X") 9 =
        true := by
      unfold strncmpEq
      rw [List.take_append_of_le_length (by decide)]
      decide
    simp at hE hD
    simp [amd_em_enabled, hE, hD]
  · have h1 : strncmpEq (String.toList "unknown-box") (String.toList "ETHANOL_X") 9 =
        false := by decide
    have h2 : strncmpEq (String.toList "unknown-box") (String.toList "DAYTONA_X") 9 =
        false := by decide
    have h3 : strncmpEq (String.toList "unknown-box") (String.toList "ThinkSystem SR655 V3")
        20 = false := by decide
    simp at h1 h2 h3
    simp [amd_em_enabled, h1, h2, h3]
  · simp [amd_em_enabled]
  · have h1 : strncmpEq (String.toList "daytona_x") (String.toList "ETHANOL_X") 9 =
        false := by decide
    have h2 : strncmpEq (String.toList "daytona_x") (String.toList "DAYTONA_X") 9 =
        false := by decide
    have h3 : strncmpEq (String.toList "daytona_x") (String.toList "ThinkSystem SR655 V3")
        20 = false := by decide
    simp at h1 h2 h3
    simp [amd_em_enabled, h1, h2, h3]

theorem afterLastSlash_none (s : List Char) (h : '/' ∉ s) : afterLastSlash s = none := by
  induction s with
  | nil => rfl
  | cons c rest ih =>
    have h1 : c ≠ '/' := fun hc => h (by simp [hc])
    have h2 : '/' ∉ rest := fun hc => h (by simp [hc])
    simp [afterLastSlash, ih h2, h1]

theorem afterLastSlash_append (pre seg : List Char) (h : '/' ∉ seg) :
    afterLastSlash (pre ++ '/' :: seg) = some seg := by
  induction pre with
  | nil => simp [afterLastSlash, afterLastSlash_none seg h]
  | cons c rest ih => simp [afterLastSlash, ih]

theorem strchr0_none (c : Char) (s : List Char) (h : c ∉ s) : strchr0 c s = none := by
  induction s with
  | nil => rfl
  | cons d rest ih =>
    have h1 : d ≠ c := fun hc => h (by simp [hc])
    have h2 : c ∉ rest := fun hc => h (by simp [hc])
    simp [strchr0, ih h2, h1]

theorem strchr0_append (c : Char) (a b : List Char) (h : c ∉ a) :
    strchr0 c (a ++ c :: b) = some a.length := by
  induction a with
  | nil => simp [strchr0]
  | cons d rest ih =>
    have h1 : d ≠ c := fun hc => h (by simp [hc])
    have h2 : c ∉ rest := fun hc => h (by simp [hc])
    simp [strchr0, h1, ih h2]

theorem scanSlots_no_match (p : List Char) (slots : List SlotEntry)
    (h : ∀ e ∈ slots, ∀ ad, e.address = some ad → ad ≠ p) : scanSlots p slots = -1 := by
  induction slots with
  | nil => rfl
  | cons e rest ih =>
    obtain ⟨nm, addr⟩ := e
    cases addr with
    | none =>
      simp only [scanSlots]
      exact ih fun e' hm => h e' (List.mem_cons_of_mem _ hm)
    | some ad =>
      simp only [scanSlots]
      rw [if_neg (h ⟨nm, some ad⟩ (List.mem_cons_self _ _) ad rfl)]
      exact ih fun e' hm => h e' (List.mem_cons_of_mem _ hm)

theorem scanSlots_first_match (p : List Char) (s1 : List SlotEntry) (e : SlotEntry)
    (s2 : List SlotEntry) (h1 : ∀ e' ∈ s1, ∀ ad, e'.address = some ad → ad ≠ p)
    (h2 : e.address = some p) :
    scanSlots p (s1 ++ e :: s2) =
      (match parseDec e.name with
       | some n => Int.ofNat n
       | none => -1) := by
  induction s1 with
  | nil => simp [scanSlots, h2]
  | cons e' rest ih =>
    rw [List.cons_append]
    obtain ⟨nm, addr⟩ := e'
    cases addr with
    | none =>
      simp only [scanSlots]
      exact ih fun x hm => h1 x (List.mem_cons_of_mem _ hm)
    | some ad =>
      simp only [scanSlots]
      rw [if_neg (h1 ⟨nm, some ad⟩ (List.mem_cons_self _ _) ad rfl)]
      exact ih fun x hm => h1 x (List.mem_cons_of_mem _ hm)

/-- C7: the NVMe port resolver takes the final path segment (no `/`
present at all is an error), cuts it at its first `.` (no `.` is an
error), and scans the slot registry for the first entry whose address
attribute equals the stripped value exactly: its name parsed as a
decimal integer is the bay index, a parse failure is an error, and no
matching entry is an error; on the spec's example path the stripped
slot address is `0000:e3:00`. -/
theorem c7_nvme_port_resolution :
    (∀ (path : List Char) (slots : List SlotEntry), '/' ∉ path →
      _get_ipmi_nvme_port path slots = -1) ∧
    (∀ (pre seg : List Char) (slots : List SlotEntry), '/' ∉ seg → '.' ∉ seg →
      _get_ipmi_nvme_port (pre ++ '/' :: seg) slots = -1) ∧
    (∀ (pre a b : List Char) (slots : List SlotEntry),
      '/' ∉ a → '/' ∉ b → '.' ∉ a →
      _get_ipmi_nvme_port (pre ++ '/' :: (a ++ '.' :: b)) slots = scanSlots a slots) ∧
    (∀ (p : List Char) (slots : List SlotEntry),
      (∀ e ∈ slots, ∀ ad, e.address = some ad → ad ≠ p) → scanSlots p slots = -1) ∧
    (∀ (p : List Char) (s1 : List SlotEntry) (e : SlotEntry) (s2 : List SlotEntry) (n : Nat),
      (∀ e' ∈ s1, ∀ ad, e'.address = some ad → ad ≠ p) → e.address = some p →
      parseDec e.name = some n →
      scanSlots p (s1 ++ e :: s2) = Int.ofNat n) ∧
    (∀ (p : List Char) (s1 : List SlotEntry) (e : SlotEntry) (s2 : List SlotEntry),
      (∀ e' ∈ s1, ∀ ad, e'.address = some ad → ad ≠ p) → e.address = some p →
      parseDec e.name = none →
      scanSlots p (s1 ++ e :: s2) = -1) ∧
    (∀ slots : List SlotEntry,
      _get_ipmi_nvme_port
        (String.toList "/sys/devices/pci0000:e0/0000:e0:03.3/0000:e3:00.0") slots =
      scanSlots (String.toList "0000:e3:00") slots) := by
  refine ⟨?_, ?_, ?_, scanSlots_no_match, ?_, ?_, fun slots => rfl⟩
  · intro path slots h
    simp [_get_ipmi_nvme_port, afterLastSlash_none path h]
  · intro pre seg slots hs hd
    simp [_get_ipmi_nvme_port, afterLastSlash_append pre seg hs, strchr0_none '.' seg hd]
  · intro pre a b slots ha hb hd
    have hseg : '/' ∉ a ++ '.' :: b := by
      intro hc
      rcases List.mem_append.mp hc with hc | hc
      · exact ha hc
      · rcases List.mem_cons.mp hc with hc | hc
        · exact absurd hc.symm (by decide)
        · exact hb hc
    simp only [_get_ipmi_nvme_port, afterLastSlash_append pre _ hseg,
      strchr0_append '.' a b hd]
    rw [List.take_left]
  · intro p s1 e s2 n h1 h2 h3
    rw [scanSlots_first_match p s1 e s2 h1 h2, h3]
  · intro p s1 e s2 h1 h2 h3
    rw [scanSlots_first_match p s1 e s2 h1 h2, h3]

/-- Witness for `c7_nvme_port_resolution` at a concrete input: the
spec's example path against a one-entry registry mapping address
`0000:e3:00` to slot name `3` resolves to bay 3. -/
theorem c7_nvme_port_resolution_witness :
    _get_ipmi_nvme_port
        (String.toList "/sys/devices/pci0000:e0/0000:e0:03.3/0000:e3:00.0")
        [⟨String.toList "3", some (String.toList "0000:e3:00")⟩] = 3 := by
  have h := c7_nvme_port_resolution
  rw [h.2.2.2.2.2.2 [⟨String.toList "3", some (String.toList "0000:e3:00")⟩]]
  have hm := h.2.2.2.2.1 (String.toList "0000:e3:00") []
    ⟨String.toList "3", some (String.toList "0000:e3:00")⟩ [] 3
    (by simp) rfl (by decide)
  simpa using hm

theorem strchr0_spec (c : Char) (s : List Char) (j : Nat) (h : strchr0 c s = some j) :
    s[j]? = some c ∧ ∀ k, k < j → s[k]? ≠ some c := by
  induction s generalizing j with
  | nil => simp [strchr0] at h
  | cons d rest ih =>
    simp only [strchr0] at h
    by_cases hd : d = c
    · rw [if_pos hd] at h
      simp only [Option.some.injEq] at h
      subst h
      subst hd
      exact ⟨by simp, fun k hk => absurd hk (by omega)⟩
    · rw [if_neg hd] at h
      cases hr : strchr0 c rest with
      | none =>
        rw [hr] at h
        simp at h
      | some j' =>
        rw [hr] at h
        simp only [Option.map_some', Option.some.injEq] at h
        subst h
        obtain ⟨h1, h2⟩ := ih j' hr
        refine ⟨by simpa using h1, ?_⟩
        intro k hk
        cases k with
        | zero => simpa using fun hc => hd hc
        | succ k' =>
          have := h2 k' (by omega)
          simpa using this

theorem strstr0_spec (needle s : List Char) (i : Nat) (h : strstr0 needle s = some i) :
    needle.isPrefixOf (s.drop i) = true ∧
      ∀ k, k < i → needle.isPrefixOf (s.drop k) = false := by
  induction s generalizing i with
  | nil =>
    simp only [strstr0] at h
    by_cases hp : needle.isPrefixOf ([] : List Char)
    · rw [if_pos hp] at h
      simp only [Option.some.injEq] at h
      subst h
      exact ⟨hp, fun k hk => absurd hk (by omega)⟩
    · rw [if_neg hp] at h
      simp at h
  | cons d rest ih =>
    simp only [strstr0] at h
    by_cases hp : needle.isPrefixOf (d :: rest)
    · rw [if_pos hp] at h
      simp only [Option.some.injEq] at h
      subst h
      exact ⟨hp, fun k hk => absurd hk (by omega)⟩
    · rw [if_neg hp] at h
      cases hr : strstr0 needle rest with
      | none =>
        rw [hr] at h
        simp at h
      | some i' =>
        rw [hr] at h
        simp only [Option.map_some', Option.some.injEq] at h
        subst h
        obtain ⟨h1, h2⟩ := ih i' hr
        refine ⟨by simpa using h1, ?_⟩
        intro k hk
        cases k with
        | zero =>
          simpa using Bool.eq_false_iff.mpr hp
        | succ k' =>
          have := h2 k' (by omega)
          simpa using this

/-- C8 as stated is false at a concrete input: the controller path
`/data/x` contains neither an NVMe marker nor a SATA marker of the form
`ataNN`, yet `get_path` returns `/data/` rather than the unresolvable
sentinel, because the code looks for the bare substring `ata` (found
inside `data`). -/
theorem c8_counterexample :
    (strstr0 nvmeMarker (String.toList "/data/x")).isSome = false ∧
    hasAtaDigit (String.toList "/data/x") = false ∧
    _amd_ipmi_sm_get_path (String.toList "/data/x") (String.toList "/s") =
      some (String.toList "/data/") ∧
    some (String.toList "/data/") ≠ (none : Option (List Char)) := by
  refine ⟨by decide, by decide, by decide, by decide⟩

/-- C8 amended: `get_path` returns a duplicate of the sysfs path when
the controller path contains the substring `nvme`; otherwise it looks
for the first occurrence of the bare substring `ata` (not necessarily a
SATA `ataNN` segment) and returns the controller path truncated through
and including the first `/` at or after that occurrence; it returns the
null sentinel when there is no `nvme`, and either no `ata` substring or
no `/` after its first occurrence. -/
theorem c8_get_path :
    (∀ cp sp : List Char, (strstr0 nvmeMarker cp).isSome = true →
      _amd_ipmi_sm_get_path cp sp = some sp) ∧
    (∀ cp sp : List Char, strstr0 nvmeMarker cp = none → strstr0 ataMarker cp = none →
      _amd_ipmi_sm_get_path cp sp = none) ∧
    (∀ (cp sp : List Char) (i : Nat), strstr0 nvmeMarker cp = none →
      strstr0 ataMarker cp = some i → strchr0 '/' (cp.drop i) = none →
      _amd_ipmi_sm_get_path cp sp = none) ∧
    (∀ (cp sp : List Char) (i j : Nat), strstr0 nvmeMarker cp = none →
      strstr0 ataMarker cp = some i → strchr0 '/' (cp.drop i) = some j →
      _amd_ipmi_sm_get_path cp sp = some (cp.take (i + j + 1)) ∧
      ataMarker.isPrefixOf (cp.drop i) = true ∧
      (∀ k, k < i → ataMarker.isPrefixOf (cp.drop k) = false) ∧
      cp[i + j]? = some '/' ∧
      (∀ k, i ≤ k → k < i + j → cp[k]? ≠ some '/')) ∧
    (∀ sp : List Char,
      _amd_ipmi_sm_get_path (String.toList "/sys/devices/foo/ata3/link/dev") sp =
        some (String.toList "/sys/devices/foo/ata3/")) := by
  refine ⟨?_, ?_, ?_, ?_, fun sp => rfl⟩
  · intro cp sp h
    simp [_amd_ipmi_sm_get_path, h]
  · intro cp sp h1 h2
    simp [_amd_ipmi_sm_get_path, h1, h2]
  · intro cp sp i h1 h2 h3
    simp [_amd_ipmi_sm_get_path, h1, h2, h3]
  · intro cp sp i j h1 h2 h3
    obtain ⟨hata, hfirst⟩ := strstr0_spec ataMarker cp i h2
    obtain ⟨hsl, hslfirst⟩ := strchr0_spec '/' (cp.drop i) j h3
    refine ⟨by simp [_amd_ipmi_sm_get_path, h1, h2, h3], hata, hfirst, ?_, ?_⟩
    · rw [List.getElem?_drop] at hsl
      exact hsl
    · intro k hk1 hk2 hc
      have := hslfirst (k - i) (by omega)
      rw [List.getElem?_drop] at this
      rw [show i + (k - i) = k by omega] at this
      exact this hc

/-- Witness for `c8_get_path` at a concrete input: the SATA branch on
`/x/ata3/y` truncates through the `/` after `ata3`. -/
theorem c8_get_path_witness :
    _amd_ipmi_sm_get_path (String.toList "/x/ata3/y") (String.toList "/s") =
      some (String.toList "/x/ata3/") := by
  have h := (c8_get_path.2.2.2.1 (String.toList "/x/ata3/y") (String.toList "/s") 3 4
    (by decide) (by decide) (by decide)).1
  simpa using h

end AmdLed
